import Mathlib

/-!
Verification development for the LED-matrix Morse decoder
(`readpassImage.py`, the still-image variant, and `read-morse/readpass.py`,
the live-video variant; `readpass.py` is an earlier demo that contains only
a classifier and extractor, with different thresholds and no decoder).

Modelling conventions:
* A pixel (both a BGR sample and its HSV representation) is a triple of
  naturals; real images carry 8-bit channels, expressed where needed by the
  predicate `frame_uint8`.
* OpenCV library routines are external collaborators: `cv2.resize` is an
  arbitrary function from a Frame to a 16x16 grid, `cv2.cvtColor`
  (BGR to HSV, one sample at a time) is an arbitrary function on pixels,
  and both appear as parameters.  `cv2.LUT` has trivial documented
  semantics (per-channel table lookup) and is modelled directly.
* Python `str.strip()` removes the six ASCII whitespace characters from
  both ends; in this program only the space character can occur.
* The Python dict literal `MORSE_CODE_DICT` contains the key `.-..-.`
  twice; dict-literal semantics keep the value of the last occurrence.
  The lookup model searches the pair list from the end.
-/

/-- A triple of naturals: used both for a BGR sample and for the
hue/saturation/value triple produced by the (external) color conversion. -/
abbrev Pixel : Type := ℕ × ℕ × ℕ

/-- A raw camera frame: rows of BGR pixels, arbitrary dimensions. -/
abbrev Frame : Type := List (List Pixel)

/-- The 16x16 image produced by `cv2.resize`: indexed by row then column.
Only indices below 16 are ever consulted. -/
abbrev Grid : Type := ℕ → ℕ → Pixel

/-- The six characters removed by Python `str.strip()`. -/
def isPySpace (c : Char) : Bool :=
  c = ' ' || c = Char.ofNat 9 || c = Char.ofNat 10 ||
  c = Char.ofNat 13 || c = Char.ofNat 11 || c = Char.ofNat 12

/-- Python `str.strip()` on a character list: drop whitespace from both ends. -/
def stripChars (cs : List Char) : List Char :=
  ((cs.dropWhile isPySpace).reverse.dropWhile isPySpace).reverse

/-- Python `str.strip()`. -/
def pyStrip (s : String) : String := String.mk (stripChars s.data)

/-! ### Color classifier (`classify_pixel`, readpassImage.py lines 19-67) -/

def RED_HUE_MIN1 : ℕ := 0
def RED_HUE_MAX1 : ℕ := 10
def RED_HUE_MIN2 : ℕ := 160
def RED_HUE_MAX2 : ℕ := 179
def RED_SAT_MIN : ℕ := 40
def RED_SAT_MAX : ℕ := 255
def RED_VAL_MIN : ℕ := 80
def RED_VAL_MAX : ℕ := 255
def BLUE_HUE_MIN : ℕ := 90
def BLUE_HUE_MAX : ℕ := 130
def BLUE_SAT_MIN : ℕ := 40
def BLUE_SAT_MAX : ℕ := 255
def BLUE_VAL_MIN : ℕ := 80
def BLUE_VAL_MAX : ℕ := 255

/-- The `is_red` condition of `classify_pixel`, on an HSV triple. -/
def is_red_pred (hsv : Pixel) : Prop :=
  ((RED_HUE_MIN1 ≤ hsv.1 ∧ hsv.1 ≤ RED_HUE_MAX1) ∨
    (RED_HUE_MIN2 ≤ hsv.1 ∧ hsv.1 ≤ RED_HUE_MAX2)) ∧
  (RED_SAT_MIN ≤ hsv.2.1 ∧ hsv.2.1 ≤ RED_SAT_MAX) ∧
  (RED_VAL_MIN ≤ hsv.2.2 ∧ hsv.2.2 ≤ RED_VAL_MAX)

/-- The `is_blue` condition of `classify_pixel`, on an HSV triple. -/
def is_blue_pred (hsv : Pixel) : Prop :=
  (BLUE_HUE_MIN ≤ hsv.1 ∧ hsv.1 ≤ BLUE_HUE_MAX) ∧
  (BLUE_SAT_MIN ≤ hsv.2.1 ∧ hsv.2.1 ≤ BLUE_SAT_MAX) ∧
  (BLUE_VAL_MIN ≤ hsv.2.2 ∧ hsv.2.2 ≤ BLUE_VAL_MAX)

instance (hsv : Pixel) : Decidable (is_red_pred hsv) := by
  unfold is_red_pred; infer_instance

instance (hsv : Pixel) : Decidable (is_blue_pred hsv) := by
  unfold is_blue_pred; infer_instance

/-- `classify_pixel(bgr_pixel)`: convert the BGR sample to HSV (external
`cv2.cvtColor`, the parameter `toHSV`), then test `is_red` first, then
`is_blue`, else return the empty string. -/
def classify_pixel (toHSV : Pixel → Pixel) (bgr_pixel : Pixel) : String :=
  let hsv := toHSV bgr_pixel
  if is_red_pred hsv then "."
  else if is_blue_pred hsv then "-"
  else ""

/-! ### Grid sampler + sequence assembler
(`extract_morse_sequences`, readpassImage.py lines 70-93) -/

/-- The inner loop of `extract_morse_sequences`: concatenate the
classifications of the 8 pixels of one word slot, then `strip()`. -/
def slot_sequence (toHSV : Pixel → Pixel) (row_data : ℕ → Pixel)
    (word_idx : ℕ) : String :=
  pyStrip ((List.range 8).foldl
    (fun cur i => cur ++ classify_pixel toHSV (row_data (word_idx * 8 + i))) "")

/-- `extract_morse_sequences(image)` after the external `cv2.resize` to
16x16: for each of the 16 rows, for each of the 2 word slots, append the
slot's stripped sequence. -/
def extract_morse_sequences (toHSV : Pixel → Pixel) (resized : Grid) :
    List String :=
  (List.range 16).foldl
    (fun acc row =>
      (List.range 2).foldl
        (fun acc2 word_idx => acc2 ++ [slot_sequence toHSV (resized row) word_idx])
        acc)
    []

/-! ### Morse code table and decoder
(`MORSE_CODE_DICT` / `morse_to_text`, readpassImage.py lines 96-118) -/

/-- The apostrophe character, written by code point. -/
def aposChar : Char := Char.ofNat 39

/-- The one-character string holding an apostrophe. -/
def apostrophe : String := String.mk [aposChar]

/-- The pairs of the `MORSE_CODE_DICT` literal, in source order.  Note the
key `.-..-.` occurs twice (once mapped to a double quote, once to an
apostrophe); Python dict-literal semantics keep the last value. -/
def MORSE_CODE_DICT : List (String × String) :=
  [(".-", "A"), ("-...", "B"), ("-.-.", "C"), ("-..", "D"), (".", "E"),
   ("..-.", "F"), ("--.", "G"), ("....", "H"), ("..", "I"), (".---", "J"),
   ("-.-", "K"), (".-..", "L"), ("--", "M"), ("-.", "N"), ("---", "O"),
   (".--.", "P"), ("--.-", "Q"), (".-.", "R"), ("...", "S"), ("-", "T"),
   ("..-", "U"), ("...-", "V"), (".--", "W"), ("-..-", "X"), ("-.--", "Y"),
   ("--..", "Z"),
   ("-----", "0"), (".----", "1"), ("..---", "2"), ("...--", "3"),
   ("....-", "4"), (".....", "5"), ("-....", "6"), ("--...", "7"),
   ("---..", "8"), ("----.", "9"),
   (".-.-.-", "."), ("--..--", ","), ("---...", ":"), ("..--..", "?"),
   ("-....-", "-"), (".-..-.", "\""), ("-.-.--", "!"), (".-.-.", "+"),
   (".-..-.", apostrophe), ("---.", "("), ("-.--.-", ")"), (".-...", "&"),
   ("--.-.", "@"), ("...-.-", "$"), (".-.-..", "_"), ("..--.-", "/"),
   ("...---...", "SOS")]

/-- Python `dict.get(k)` on the dict built from the literal: the value of
the last pair whose key equals `k`, if any. -/
def dict_get (k : String) : Option String :=
  (MORSE_CODE_DICT.reverse.find? (fun p => p.1 == k)).map (fun p => p.2)

/-- `morse_to_text(seq) = MORSE_CODE_DICT.get(seq, '?')`. -/
def morse_to_text (morse_code_sequence : String) : String :=
  (dict_get morse_code_sequence).getD "?"

/-! ### Decode assembly (main loop, readpassImage.py lines 148-168,
read-morse/readpass.py lines 153-161) -/

/-- The accumulation loop over the extracted sequences: an empty sequence
appends a space, a sequence whose translation is not the unknown marker
appends the translation, and any other sequence appends nothing. -/
def build_translated (seqs : List String) : List String :=
  seqs.foldl
    (fun acc morse_seq =>
      let translated_char := morse_to_text morse_seq
      if morse_seq = "" then acc ++ [" "]
      else if translated_char ≠ "?" then acc ++ [translated_char]
      else acc)
    []

/-- `"".join(translated_characters).strip()`: the DecodedText of one pass. -/
def decoded_text (seqs : List String) : String :=
  pyStrip (String.join (build_translated seqs))

/-- The per-slot emission of the assembly policy, slot by slot: a single
space for an empty sequence, the looked-up character when it is not the
unknown marker, nothing otherwise. -/
def emit_slot (morse_seq : String) : String :=
  if morse_seq = "" then " "
  else if morse_to_text morse_seq ≠ "?" then morse_to_text morse_seq
  else ""

/-! ### Output stabilizer (read-morse/readpass.py lines 137, 163-168).
An emission is modelled as the pair (sequences, text); the timestamp is
external (wall clock). -/

/-- One iteration of the video loop's change detection: if the new text
differs from the stored one, emit and store it; otherwise do nothing. -/
def stabilize_step (st : String × List (List String × String))
    (res : List String × String) : String × List (List String × String) :=
  if res.2 ≠ st.1 then (res.2, st.2 ++ [res]) else st

/-- Run the change detection over a list of decode results, starting from
stored text `last` and no emissions; returns the final stored text and the
list of emissions in order. -/
def stabilize_run (last : String) (rs : List (List String × String)) :
    String × List (List String × String) :=
  rs.foldl stabilize_step (last, [])

/-! ### Brightness normalizer (`adjust_gamma`, readpassImage.py lines 5-16)

The table entries are numpy float64 computations, modelled over the exact
reals.  Two operation-level facts of the source language matter:
* `invGamma = 1.0 / gamma` is Python float division and raises
  `ZeroDivisionError` when `gamma` is zero — modelled by `invGammaOf`
  returning `none`;
* the table base `i / 255.0` is a numpy float64 scalar (`i` comes from
  `np.arange`), and numpy evaluates `np.float64(0.0) ** e` for `e < 0` to
  `+inf` with a `RuntimeWarning` — it does *not* raise.  The subsequent
  `astype("uint8")` cast of `+inf` is platform-defined (0 on x86-64); the
  modelled value `infUInt8` is never relied on by any theorem.
`astype("uint8")` on an in-range nonnegative float truncates toward zero;
for out-of-range finite values the C cast keeps the low byte of the
truncation, modelled by `% 256`. -/

/-- Result of the uint8 cast of `+inf` (platform-defined; irrelevant to
every theorem below). -/
def infUInt8 : ℕ := 0

/-- `invGamma = 1.0 / gamma`: Python float division, failing on zero. -/
noncomputable def invGammaOf (gamma : ℝ) : Option ℝ :=
  if gamma = 0 then none else some (1 / gamma)

/-- `astype("uint8")` of a nonnegative finite float: truncate toward zero,
keep the low byte. -/
noncomputable def toUInt8Trunc (r : ℝ) : ℕ := (⌊r⌋).toNat % 256

/-- One entry of the gamma lookup table:
`((i / 255.0) ** invGamma) * 255` cast to uint8, with the numpy
`0.0 ** negative = +inf` special case. -/
noncomputable def gamma_table_entry (invGamma : ℝ) (i : ℕ) : ℕ :=
  if i = 0 ∧ invGamma < 0 then infUInt8
  else toUInt8Trunc ((((i : ℝ) / 255) ^ invGamma) * 255)

/-- The 256-entry lookup table built by `adjust_gamma`; `none` exactly when
building it raises. -/
noncomputable def gamma_table (gamma : ℝ) : Option (List ℕ) :=
  (invGammaOf gamma).map (fun ig => (List.range 256).map (gamma_table_entry ig))

/-- `cv2.LUT(image, table)`: replace every channel value by its table
entry. -/
def lut (table : List ℕ) (f : Frame) : Frame :=
  f.map (List.map (fun p => (table.getD p.1 0, table.getD p.2.1 0, table.getD p.2.2 0)))

/-- `adjust_gamma(image, gamma)`: build the table, then apply it. -/
noncomputable def adjust_gamma (f : Frame) (gamma : ℝ) : Option Frame :=
  (gamma_table gamma).map (fun table => lut table f)

/-- All channel values of the frame are 8-bit, as they are for any real
image. -/
def frame_uint8 (f : Frame) : Prop :=
  ∀ row ∈ f, ∀ p ∈ row, p.1 ≤ 255 ∧ p.2.1 ≤ 255 ∧ p.2.2 ≤ 255

/-! ### The full decode pass shared by both complete variants.
`resize` (`cv2.resize` to 16x16) and `toHSV` (`cv2.cvtColor` per sample)
are the external OpenCV collaborators; both variants invoke them with
identical arguments.  Both variants fix `gamma = 0.4`. -/

/-- One decode pass of the still-image variant (readpassImage.py `main`):
gamma correction at 0.4, resize, per-cell classification and sequence
assembly, translation and final text assembly. -/
noncomputable def decode (resize : Frame → Grid) (toHSV : Pixel → Pixel)
    (f : Frame) : Option (List String × String) :=
  (adjust_gamma f (2 / 5)).map (fun processed =>
    let seqs := extract_morse_sequences toHSV (resize processed)
    (seqs, decoded_text seqs))

/-! ### The live-video variant (read-morse/readpass.py), embedded
separately from its own source text.  Its `adjust_gamma` (lines 5-14),
`classify_pixel` (lines 16-58), `extract_morse_sequences` (lines 61-84),
`MORSE_CODE_DICT` / `morse_to_text` (lines 86-107) and the per-frame
assembly inside `main` (lines 151-161, an `if`/`elif` with no `else`
branch) are modelled in the `Video` namespace. -/

namespace Video

def RED_HUE_MIN1 : ℕ := 0

def RED_HUE_MAX1 : ℕ := 10

def RED_HUE_MIN2 : ℕ := 160

def RED_HUE_MAX2 : ℕ := 179

def RED_SAT_MIN : ℕ := 40

def RED_SAT_MAX : ℕ := 255

def RED_VAL_MIN : ℕ := 80

def RED_VAL_MAX : ℕ := 255

def BLUE_HUE_MIN : ℕ := 90

def BLUE_HUE_MAX : ℕ := 130

def BLUE_SAT_MIN : ℕ := 40

def BLUE_SAT_MAX : ℕ := 255

def BLUE_VAL_MIN : ℕ := 80

def BLUE_VAL_MAX : ℕ := 255

/-- The `is_red` condition of the video variant's `classify_pixel`. -/
def is_red_pred (hsv : Pixel) : Prop :=
  ((RED_HUE_MIN1 ≤ hsv.1 ∧ hsv.1 ≤ RED_HUE_MAX1) ∨
    (RED_HUE_MIN2 ≤ hsv.1 ∧ hsv.1 ≤ RED_HUE_MAX2)) ∧
  (RED_SAT_MIN ≤ hsv.2.1 ∧ hsv.2.1 ≤ RED_SAT_MAX) ∧
  (RED_VAL_MIN ≤ hsv.2.2 ∧ hsv.2.2 ≤ RED_VAL_MAX)

/-- The `is_blue` condition of the video variant's `classify_pixel`. -/
def is_blue_pred (hsv : Pixel) : Prop :=
  (BLUE_HUE_MIN ≤ hsv.1 ∧ hsv.1 ≤ BLUE_HUE_MAX) ∧
  (BLUE_SAT_MIN ≤ hsv.2.1 ∧ hsv.2.1 ≤ BLUE_SAT_MAX) ∧
  (BLUE_VAL_MIN ≤ hsv.2.2 ∧ hsv.2.2 ≤ BLUE_VAL_MAX)

instance (hsv : Pixel) : Decidable (Video.is_red_pred hsv) := by
  unfold Video.is_red_pred; infer_instance

instance (hsv : Pixel) : Decidable (Video.is_blue_pred hsv) := by
  unfold Video.is_blue_pred; infer_instance

/-- The video variant's `classify_pixel`. -/
def classify_pixel (toHSV : Pixel → Pixel) (bgr_pixel : Pixel) : String :=
  let hsv := toHSV bgr_pixel
  if Video.is_red_pred hsv then "."
  else if Video.is_blue_pred hsv then "-"
  else ""

/-- The inner slot loop of the video variant's `extract_morse_sequences`. -/
def slot_sequence (toHSV : Pixel → Pixel) (row_data : ℕ → Pixel)
    (word_idx : ℕ) : String :=
  pyStrip ((List.range 8).foldl
    (fun cur i => cur ++ Video.classify_pixel toHSV (row_data (word_idx * 8 + i))) "")

/-- The video variant's `extract_morse_sequences` after `cv2.resize`. -/
def extract_morse_sequences (toHSV : Pixel → Pixel) (resized : Grid) :
    List String :=
  (List.range 16).foldl
    (fun acc row =>
      (List.range 2).foldl
        (fun acc2 word_idx =>
          acc2 ++ [Video.slot_sequence toHSV (resized row) word_idx])
        acc)
    []

/-- The video variant's `MORSE_CODE_DICT` literal pairs, in source order
(the same literal, including the duplicated key `.-..-.`). -/
def MORSE_CODE_DICT : List (String × String) :=
  [(".-", "A"), ("-...", "B"), ("-.-.", "C"), ("-..", "D"), (".", "E"),
   ("..-.", "F"), ("--.", "G"), ("....", "H"), ("..", "I"), (".---", "J"),
   ("-.-", "K"), (".-..", "L"), ("--", "M"), ("-.", "N"), ("---", "O"),
   (".--.", "P"), ("--.-", "Q"), (".-.", "R"), ("...", "S"), ("-", "T"),
   ("..-", "U"), ("...-", "V"), (".--", "W"), ("-..-", "X"), ("-.--", "Y"),
   ("--..", "Z"),
   ("-----", "0"), (".----", "1"), ("..---", "2"), ("...--", "3"),
   ("....-", "4"), (".....", "5"), ("-....", "6"), ("--...", "7"),
   ("---..", "8"), ("----.", "9"),
   (".-.-.-", "."), ("--..--", ","), ("---...", ":"), ("..--..", "?"),
   ("-....-", "-"), (".-..-.", "\""), ("-.-.--", "!"), (".-.-.", "+"),
   (".-..-.", apostrophe), ("---.", "("), ("-.--.-", ")"), (".-...", "&"),
   ("--.-.", "@"), ("...-.-", "$"), (".-.-..", "_"), ("..--.-", "/"),
   ("...---...", "SOS")]

/-- The video variant's dict lookup. -/
def dict_get (k : String) : Option String :=
  (Video.MORSE_CODE_DICT.reverse.find? (fun p => p.1 == k)).map (fun p => p.2)

/-- The video variant's `morse_to_text`. -/
def morse_to_text (morse_code_sequence : String) : String :=
  (Video.dict_get morse_code_sequence).getD "?"

/-- The per-frame assembly loop of the video variant's `main`
(`if morse_seq == '': append(' ') elif translated_char != '?':
append(translated_char)`). -/
def build_translated (seqs : List String) : List String :=
  seqs.foldl
    (fun acc morse_seq =>
      let translated_char := Video.morse_to_text morse_seq
      if morse_seq = "" then acc ++ [" "]
      else if translated_char ≠ "?" then acc ++ [translated_char]
      else acc)
    []

/-- `current_translated_text = "".join(current_translated_characters).strip()`. -/
def decoded_text (seqs : List String) : String :=
  pyStrip (String.join (Video.build_translated seqs))

/-- The video variant's `invGamma = 1.0 / gamma`. -/
noncomputable def invGammaOf (gamma : ℝ) : Option ℝ :=
  if gamma = 0 then none else some (1 / gamma)

/-- The video variant's gamma table entry. -/
noncomputable def gamma_table_entry (invGamma : ℝ) (i : ℕ) : ℕ :=
  if i = 0 ∧ invGamma < 0 then infUInt8
  else toUInt8Trunc ((((i : ℝ) / 255) ^ invGamma) * 255)

/-- The video variant's gamma table. -/
noncomputable def gamma_table (gamma : ℝ) : Option (List ℕ) :=
  (Video.invGammaOf gamma).map
    (fun ig => (List.range 256).map (Video.gamma_table_entry ig))

/-- The video variant's `adjust_gamma`. -/
noncomputable def adjust_gamma (f : Frame) (gamma : ℝ) : Option Frame :=
  (Video.gamma_table gamma).map (fun table => lut table f)

/-- One decode pass of the live-video variant (`main` loop body before the
stabilizer), with `gamma = 0.4`. -/
noncomputable def decode (resize : Frame → Grid) (toHSV : Pixel → Pixel)
    (f : Frame) : Option (List String × String) :=
  (Video.adjust_gamma f (2 / 5)).map (fun processed =>
    let seqs := Video.extract_morse_sequences toHSV (resize processed)
    (seqs, Video.decoded_text seqs))

end Video

/-- The per-channel remapping the normalizer actually performs for a valid
gamma: the truncation toward zero of `255 * (x/255)^(1/gamma)`. -/
noncomputable def gamma_remap (gamma : ℝ) (x : ℕ) : ℕ :=
  (⌊(((x : ℝ) / 255) ^ (1 / gamma)) * 255⌋).toNat

/-! ## Helper lemmas -/

theorem join_foldl (l : List String) (a : String) :
    l.foldl (fun r s => r ++ s) a = a ++ String.join l := by
  induction l generalizing a with
  | nil => simp [String.join]
  | cons s t ih =>
    show t.foldl (fun r s => r ++ s) (a ++ s) = a ++ String.join (s :: t)
    rw [ih]
    show a ++ s ++ String.join t = a ++ (s :: t).foldl (fun r s => r ++ s) ""
    rw [show (s :: t).foldl (fun r s => r ++ s) ""
          = t.foldl (fun r s => r ++ s) ("" ++ s) from rfl]
    rw [ih, String.empty_append, String.append_assoc]

theorem join_cons (s : String) (l : List String) :
    String.join (s :: l) = s ++ String.join l := by
  show (s :: l).foldl (fun r s => r ++ s) "" = _
  rw [show (s :: l).foldl (fun r s => r ++ s) ""
        = l.foldl (fun r s => r ++ s) ("" ++ s) from rfl]
  rw [join_foldl, String.empty_append]

theorem foldl_append_singleton {α β : Type} (f : α → β) (l : List α)
    (acc : List β) :
    l.foldl (fun a x => a ++ [f x]) acc = acc ++ l.map f := by
  induction l generalizing acc with
  | nil => simp
  | cons x t ih => simp [ih]

/-! ## C2: the Morse decoder -/

/-- C2: for every Sequence string, `morse_to_text` returns the value the
dict maps it to under exact string match when the Sequence is a key, and
the sentinel `?` when it is not; the whole nine-symbol token `...---...`
resolves to `SOS`. -/
theorem C2_morse_decoder :
    (∀ s v, dict_get s = some v → morse_to_text s = v) ∧
    (∀ s, dict_get s = none → morse_to_text s = "?") ∧
    morse_to_text "...---..." = "SOS" := by
  refine ⟨fun s v h => ?_, fun s h => ?_, ?_⟩
  · simp [morse_to_text, h]
  · simp [morse_to_text, h]
  · rfl

/-- Witness for C2 at concrete inputs: `.-` is a key mapped to `A`, and
`.-.-.-.-` is not a key. -/
theorem C2_morse_decoder_witness :
    morse_to_text ".-" = "A" ∧ morse_to_text ".-.-.-.-" = "?" :=
  ⟨C2_morse_decoder.1 ".-" "A" rfl, C2_morse_decoder.2.1 ".-.-.-.-" rfl⟩

/-! ## C3: the color classifier -/

/-- C3: the classifier tests the red (class-A) predicate first and returns
a dot on a match regardless of the blue predicate; only when red fails does
it test blue and return a dash; when both fail it returns the blank. -/
theorem C3_classifier_order (toHSV : Pixel → Pixel) (p : Pixel) :
    (is_red_pred (toHSV p) → classify_pixel toHSV p = ".") ∧
    (¬ is_red_pred (toHSV p) → is_blue_pred (toHSV p) →
      classify_pixel toHSV p = "-") ∧
    (¬ is_red_pred (toHSV p) → ¬ is_blue_pred (toHSV p) →
      classify_pixel toHSV p = "") := by
  refine ⟨fun hr => ?_, fun hnr hb => ?_, fun hnr hnb => ?_⟩
  · simp [classify_pixel, hr]
  · simp [classify_pixel, hnr, hb]
  · simp [classify_pixel, hnr, hnb]

/-- Witness for C3: a red sample classifies as a dot, a blue one as a dash,
an unlit one as blank (the HSV conversion instantiated as the identity). -/
theorem C3_classifier_order_witness :
    is_red_pred ((5, 100, 100) : Pixel) ∧
    classify_pixel id ((5, 100, 100) : Pixel) = "." ∧
    ¬ is_red_pred ((100, 100, 100) : Pixel) ∧
    is_blue_pred ((100, 100, 100) : Pixel) ∧
    classify_pixel id ((100, 100, 100) : Pixel) = "-" ∧
    ¬ is_red_pred ((20, 0, 0) : Pixel) ∧ ¬ is_blue_pred ((20, 0, 0) : Pixel) ∧
    classify_pixel id ((20, 0, 0) : Pixel) = "" :=
  ⟨by decide, (C3_classifier_order id (5, 100, 100)).1 (by decide),
   by decide, by decide,
   (C3_classifier_order id (100, 100, 100)).2.1 (by decide) (by decide),
   by decide, by decide,
   (C3_classifier_order id (20, 0, 0)).2.2 (by decide) (by decide)⟩

/-! ## C9: still-image variant versus live-video variant -/

/-- C9: with the same external OpenCV collaborators (`resize`, `toHSV`),
one decode pass of the still-image variant and one decode pass of the
live-video variant produce the same sequences and the same DecodedText on
every Frame. -/
theorem C9_variant_equivalence (resize : Frame → Grid) (toHSV : Pixel → Pixel)
    (f : Frame) : decode resize toHSV f = Video.decode resize toHSV f := rfl

/-! ## C1: the decode assembly policy -/

theorem join_append (l1 l2 : List String) :
    String.join (l1 ++ l2) = String.join l1 ++ String.join l2 := by
  induction l1 with
  | nil => simp [String.join, String.empty_append]
  | cons s t ih => simp [join_cons, ih, String.append_assoc]

theorem join_step (acc : List String) (s : String) :
    String.join (if s = "" then acc ++ [" "]
      else if morse_to_text s ≠ "?" then acc ++ [morse_to_text s] else acc)
      = String.join acc ++ emit_slot s := by
  by_cases h1 : s = ""
  · rw [if_pos h1, join_append, join_cons]
    unfold emit_slot
    rw [if_pos h1]
    simp [String.join, String.append_empty]
  · rw [if_neg h1]
    by_cases h2 : morse_to_text s ≠ "?"
    · rw [if_pos h2, join_append, join_cons]
      unfold emit_slot
      rw [if_neg h1, if_pos h2]
      simp [String.join, String.append_empty]
    · rw [if_neg h2]
      unfold emit_slot
      rw [if_neg h1, if_neg h2]
      simp [String.append_empty]

theorem build_translated_join (seqs : List String) (acc : List String) :
    String.join (seqs.foldl
      (fun acc morse_seq =>
        let translated_char := morse_to_text morse_seq
        if morse_seq = "" then acc ++ [" "]
        else if translated_char ≠ "?" then acc ++ [translated_char]
        else acc) acc)
      = String.join acc ++ String.join (seqs.map emit_slot) := by
  induction seqs generalizing acc with
  | nil => simp [String.join, String.append_empty]
  | cons s t ih =>
    simp only [List.foldl_cons, List.map_cons]
    rw [ih, join_cons, join_step, String.append_assoc]

/-- C1: the DecodedText of a pass is exactly the per-slot emissions — one
space for each empty Sequence, the looked-up character for each Sequence
whose lookup result is not the unknown marker, nothing for a Sequence that
resolves to the unknown marker — concatenated and stripped of leading and
trailing spaces. -/
theorem C1_decode_assembly (seqs : List String) :
    decoded_text seqs = pyStrip (String.join (seqs.map emit_slot)) := by
  unfold decoded_text build_translated
  rw [build_translated_join]
  rw [show String.join ([] : List String) = "" from rfl, String.empty_append]

/-! ## C4: fixed sequence count and row-major order -/

theorem foldl_append_chunks {α β : Type} (g : α → List β) (l : List α)
    (acc : List β) :
    l.foldl (fun a x => a ++ g x) acc = acc ++ l.flatMap g := by
  induction l generalizing acc with
  | nil => simp
  | cons x t ih => simp [ih]

theorem extract_morse_sequences_flat (toHSV : Pixel → Pixel) (resized : Grid) :
    extract_morse_sequences toHSV resized =
      (List.range 16).flatMap (fun row =>
        [slot_sequence toHSV (resized row) 0, slot_sequence toHSV (resized row) 1]) := by
  unfold extract_morse_sequences
  have h : (fun (acc : List String) (row : ℕ) =>
      (List.range 2).foldl
        (fun acc2 word_idx => acc2 ++ [slot_sequence toHSV (resized row) word_idx])
        acc)
      = fun acc row =>
          acc ++ [slot_sequence toHSV (resized row) 0,
                  slot_sequence toHSV (resized row) 1] := by
    funext acc row
    rw [foldl_append_singleton]
    simp [List.range_succ]
  rw [h, foldl_append_chunks]
  simp

theorem length_flatMap_pair {α β : Type} (g h : α → β) (l : List α) :
    (l.flatMap (fun x => [g x, h x])).length = 2 * l.length := by
  induction l with
  | nil => simp
  | cons x t ih => simp [ih]; omega

/-- C4: for any resized grid (and thus any input Frame of positive
dimensions — `cv2.resize` always yields a 16x16 grid), a decode pass
produces exactly 16 * 2 = 32 Sequences, in row-major order with slot 0
before slot 1 inside each row. -/
theorem C4_sequence_count_order (toHSV : Pixel → Pixel) (resized : Grid) :
    (extract_morse_sequences toHSV resized).length = 16 * 2 ∧
    extract_morse_sequences toHSV resized =
      (List.range 16).flatMap (fun row =>
        [slot_sequence toHSV (resized row) 0, slot_sequence toHSV (resized row) 1]) := by
  refine ⟨?_, extract_morse_sequences_flat toHSV resized⟩
  rw [extract_morse_sequences_flat, length_flatMap_pair, List.length_range]

/-! ## C8: the output stabilizer -/

theorem stabilize_foldl_emissions (rs : List (List String × String))
    (l : String) (es : List (List String × String)) :
    rs.foldl stabilize_step (l, es) =
      ((rs.foldl stabilize_step (l, [])).1,
        es ++ (rs.foldl stabilize_step (l, [])).2) := by
  induction rs generalizing l es with
  | nil => simp
  | cons r t ih =>
    simp only [List.foldl_cons]
    by_cases h : r.2 ≠ l
    · rw [show stabilize_step (l, es) r = (r.2, es ++ [r]) from by
        unfold stabilize_step; rw [if_pos h]]
      rw [show stabilize_step (l, ([] : List (List String × String))) r
            = (r.2, [] ++ [r]) from by
        unfold stabilize_step; rw [if_pos h]]
      rw [ih r.2 (es ++ [r]), ih r.2 ([] ++ [r])]
      simp
    · rw [show stabilize_step (l, es) r = (l, es) from by
        unfold stabilize_step; rw [if_neg h]]
      rw [show stabilize_step (l, ([] : List (List String × String))) r
            = (l, ([] : List (List String × String))) from by
        unfold stabilize_step; rw [if_neg h]]
      exact ih l es

theorem stabilize_replicate (n : ℕ) (q : List String) (t : String)
    (es : List (List String × String)) :
    (List.replicate n (q, t)).foldl stabilize_step (t, es) = (t, es) := by
  induction n with
  | zero => rfl
  | succ m ih =>
    rw [List.replicate_succ, List.foldl_cons]
    rw [show stabilize_step (t, es) (q, t) = (t, es) from by
      unfold stabilize_step; simp]
    exact ih

/-- C8: starting from the empty stored text, after any prefix of decode
results, a run of `n + 1` identical results `(q, t)` whose text differs
from the stored value extends the emissions by exactly one entry and
stores `t`; the repeated identical results are never re-emitted. -/
theorem C8_stabilizer (pre : List (List String × String)) (q : List String)
    (t : String) (n : ℕ) (h : t ≠ (stabilize_run "" pre).1) :
    stabilize_run "" (pre ++ (q, t) :: List.replicate n (q, t)) =
      (t, (stabilize_run "" pre).2 ++ [(q, t)]) := by
  unfold stabilize_run at h ⊢
  rw [List.foldl_append, List.foldl_cons]
  have hstep : ∀ st : String × List (List String × String), t ≠ st.1 →
      stabilize_step st (q, t) = (t, st.2 ++ [(q, t)]) := by
    intro st hne
    unfold stabilize_step
    simp [hne]
  rw [hstep _ h, stabilize_replicate]

/-- Witness for C8: from process start, the first non-empty decode result
repeated three times is emitted exactly once. -/
theorem C8_stabilizer_witness :
    "A" ≠ (stabilize_run "" []).1 ∧
    stabilize_run "" ([] ++ ([], "A") :: List.replicate 2 ([], "A")) =
      ("A", (stabilize_run "" []).2 ++ [([], "A")]) :=
  ⟨by decide, C8_stabilizer [] [] "A" 2 (by decide)⟩

/-! ## C10: the unknown-marker filter also hides a real question mark -/

theorem mem_stripChars (c : Char) (cs : List Char) (h : c ∈ stripChars cs) :
    c ∈ cs := by
  unfold stripChars at h
  rw [List.mem_reverse] at h
  have h2 : c ∈ (cs.dropWhile isPySpace).reverse :=
    List.Sublist.mem h (List.dropWhile_sublist _)
  rw [List.mem_reverse] at h2
  exact List.Sublist.mem h2 (List.dropWhile_sublist _)

theorem mem_join_data (c : Char) (l : List String)
    (h : c ∈ (String.join l).data) : ∃ s ∈ l, c ∈ s.data := by
  induction l with
  | nil => simp [String.join] at h
  | cons s t ih =>
    rw [join_cons, String.data_append] at h
    rcases List.mem_append.mp h with h1 | h2
    · exact ⟨s, List.mem_cons_self s t, h1⟩
    · obtain ⟨u, hu, hc⟩ := ih h2
      exact ⟨u, List.mem_cons_of_mem _ hu, hc⟩

theorem dict_value_qmark (s v : String) (h : dict_get s = some v)
    (hq : ('?' : Char) ∈ v.data) : v = "?" := by
  unfold dict_get at h
  cases hf : MORSE_CODE_DICT.reverse.find? (fun p => p.1 == s) with
  | none => rw [hf] at h; simp at h
  | some p =>
    rw [hf] at h
    simp only [Option.map_some', Option.some.injEq] at h
    have hmem : p ∈ MORSE_CODE_DICT := by
      rw [← List.mem_reverse]
      exact List.mem_of_find?_eq_some hf
    have key : ∀ q ∈ MORSE_CODE_DICT, ('?' : Char) ∈ q.2.data → q.2 = "?" := by
      decide
    rw [← h]
    exact key p hmem (h ▸ hq)

theorem build_translated_mem (seqs : List String) (acc : List String)
    (x : String)
    (hx : x ∈ seqs.foldl
      (fun acc morse_seq =>
        let translated_char := morse_to_text morse_seq
        if morse_seq = "" then acc ++ [" "]
        else if translated_char ≠ "?" then acc ++ [translated_char]
        else acc) acc) :
    x ∈ acc ∨ x = " " ∨ ∃ u, x = morse_to_text u ∧ morse_to_text u ≠ "?" := by
  induction seqs generalizing acc with
  | nil => exact Or.inl (by simpa using hx)
  | cons s t ih =>
    rw [List.foldl_cons] at hx
    rcases ih _ hx with hin | hrest
    · change x ∈ (if s = "" then acc ++ [" "]
        else if morse_to_text s ≠ "?" then acc ++ [morse_to_text s]
        else acc) at hin
      by_cases h1 : s = ""
      · rw [if_pos h1] at hin
        rcases List.mem_append.mp hin with h | h
        · exact Or.inl h
        · exact Or.inr (Or.inl (by simpa using h))
      · rw [if_neg h1] at hin
        by_cases h2 : morse_to_text s ≠ "?"
        · rw [if_pos h2] at hin
          rcases List.mem_append.mp hin with h | h
          · exact Or.inl h
          · exact Or.inr (Or.inr ⟨s, by simpa using h, h2⟩)
        · rw [if_neg h2] at hin
          exact Or.inl hin
    · exact Or.inr hrest

/-- C10: the key `..--..` does map to the string `?`, which coincides with
the unknown marker, and consequently the final DecodedText of a pass never
contains the question-mark character, whatever the 32 Sequences are. -/
theorem C10_no_question_mark :
    dict_get "..--.." = some "?" ∧
    ∀ seqs : List String, ('?' : Char) ∉ (decoded_text seqs).data := by
  refine ⟨rfl, fun seqs hq => ?_⟩
  have hq' : ('?' : Char) ∈ stripChars (String.join (build_translated seqs)).data := hq
  have h1 := mem_stripChars _ _ hq'
  obtain ⟨s, hs, hcs⟩ := mem_join_data _ _ h1
  have hb := build_translated_mem seqs [] s hs
  rcases hb with habs | hsp | ⟨u, hu, hne⟩
  · simp at habs
  · rw [hsp] at hcs
    simp at hcs
  · rw [hu] at hcs
    unfold morse_to_text at hcs hne
    cases hd : dict_get u with
    | none => rw [hd] at hne; simp at hne
    | some v =>
      rw [hd] at hcs hne
      simp only [Option.getD_some] at hcs hne
      exact hne (dict_value_qmark u v hd hcs)

/-! ## C6: gamma 1.0 is the identity -/

theorem gamma_table_one : gamma_table 1 = some (List.range 256) := by
  have hig : invGammaOf 1 = some 1 := by
    unfold invGammaOf
    rw [if_neg one_ne_zero, one_div_one]
  unfold gamma_table
  rw [hig, Option.map_some']
  have hent : ∀ i ∈ List.range 256, gamma_table_entry 1 i = id i := by
    intro i hi
    show gamma_table_entry 1 i = i
    unfold gamma_table_entry toUInt8Trunc
    rw [if_neg (by norm_num : ¬(i = 0 ∧ (1:ℝ) < 0))]
    rw [Real.rpow_one, div_mul_cancel₀ _ (by norm_num : (255:ℝ) ≠ 0)]
    rw [Int.floor_natCast, Int.toNat_natCast]
    exact Nat.mod_eq_of_lt (List.mem_range.mp hi)
  rw [List.map_congr_left hent, List.map_id]

theorem lut_range_id (f : Frame) (hf : frame_uint8 f) :
    lut (List.range 256) f = f := by
  unfold lut
  have hrow : ∀ row ∈ f, List.map (fun p : Pixel =>
      ((List.range 256).getD p.1 0, (List.range 256).getD p.2.1 0,
        (List.range 256).getD p.2.2 0)) row = row := by
    intro row hrowmem
    have hp : ∀ p ∈ row, (((List.range 256).getD p.1 0,
        (List.range 256).getD p.2.1 0,
        (List.range 256).getD p.2.2 0) : Pixel) = id p := by
      intro p hpmem
      obtain ⟨h1, h2, h3⟩ := hf row hrowmem p hpmem
      have g : ∀ x : ℕ, x ≤ 255 → (List.range 256).getD x 0 = x := by
        intro x hx
        have hlt : x < (List.range 256).length := by
          rw [List.length_range]; omega
        rw [List.getD_eq_getElem _ _ hlt, List.getElem_range]
      rw [g p.1 h1, g p.2.1 h2, g p.2.2 h3]
      rfl
    rw [List.map_congr_left hp, List.map_id]
  have hrow2 : ∀ row ∈ f, List.map (fun p : Pixel =>
      ((List.range 256).getD p.1 0, (List.range 256).getD p.2.1 0,
        (List.range 256).getD p.2.2 0)) row = id row := hrow
  rw [List.map_congr_left hrow2, List.map_id]

/-- C6: with gamma 1.0 the normalizer is the identity on Frame contents:
the lookup table maps every 8-bit value to itself, and the corrected frame
equals the input frame. -/
theorem C6_gamma_identity :
    gamma_table 1 = some (List.range 256) ∧
    ∀ f : Frame, frame_uint8 f → adjust_gamma f 1 = some f := by
  refine ⟨gamma_table_one, fun f hf => ?_⟩
  unfold adjust_gamma
  rw [gamma_table_one, Option.map_some', lut_range_id f hf]

/-- Witness for C6 on a concrete one-pixel 8-bit frame. -/
theorem C6_gamma_identity_witness :
    frame_uint8 [[(7, 200, 255)]] ∧
    adjust_gamma [[(7, 200, 255)]] 1 = some [[(7, 200, 255)]] :=
  ⟨by unfold frame_uint8; decide,
   C6_gamma_identity.2 [[(7, 200, 255)]] (by unfold frame_uint8; decide)⟩

/-! ## C5: the normalizer truncates, it does not round -/

theorem gamma_table_entry_pos (ig : ℝ) (hig : 0 < ig) (x : ℕ) (hx : x ≤ 255) :
    gamma_table_entry ig x = (⌊(((x : ℝ) / 255) ^ ig) * 255⌋).toNat := by
  unfold gamma_table_entry toUInt8Trunc
  rw [if_neg (by push_neg; intro _; linarith : ¬(x = 0 ∧ ig < 0))]
  have hb0 : (0:ℝ) ≤ (x:ℝ) / 255 := by positivity
  have hb1 : ((x:ℝ)) / 255 ≤ 1 := by
    rw [div_le_one (by norm_num : (0:ℝ) < 255)]
    exact_mod_cast hx
  have hr1 : ((x:ℝ) / 255) ^ ig ≤ 1 := Real.rpow_le_one hb0 hb1 (le_of_lt hig)
  have hle : (((x:ℝ) / 255) ^ ig) * 255 ≤ 255 := by nlinarith
  have hfl : ⌊(((x:ℝ) / 255) ^ ig) * 255⌋ ≤ 255 := by
    have h255 : ⌊(255:ℝ)⌋ = (255:ℤ) := by norm_num
    calc ⌊(((x:ℝ) / 255) ^ ig) * 255⌋ ≤ ⌊(255:ℝ)⌋ := Int.floor_le_floor hle
      _ = 255 := h255
  have hlt : (⌊(((x:ℝ) / 255) ^ ig) * 255⌋).toNat < 256 := by
    have := Int.toNat_le.mpr (le_trans hfl (by norm_num : (255:ℤ) ≤ 255))
    omega
  exact Nat.mod_eq_of_lt hlt

/-- C5 (amended): for every gamma `g > 0` and every 8-bit frame, the
normalizer returns a frame of the same shape in which every channel value
`x` is remapped to the truncation toward zero of `255 * (x/255)^(1/g)` —
not to the nearest integer. -/
theorem C5_gamma_truncation (gamma : ℝ) (hg : 0 < gamma) (f : Frame)
    (hf : frame_uint8 f) :
    adjust_gamma f gamma = some (f.map (List.map (fun p : Pixel =>
      (gamma_remap gamma p.1, gamma_remap gamma p.2.1,
        gamma_remap gamma p.2.2)))) := by
  have hig : invGammaOf gamma = some (1 / gamma) := by
    unfold invGammaOf
    rw [if_neg (ne_of_gt hg)]
  have hpos : 0 < 1 / gamma := by positivity
  unfold adjust_gamma gamma_table
  rw [hig, Option.map_some', Option.map_some']
  unfold lut
  congr 1
  apply List.map_congr_left
  intro row hrow
  apply List.map_congr_left
  intro p hp
  obtain ⟨h1, h2, h3⟩ := hf row hrow p hp
  have gl : ∀ x : ℕ, x ≤ 255 →
      ((List.range 256).map (gamma_table_entry (1 / gamma))).getD x 0
        = gamma_remap gamma x := by
    intro x hx
    have hlt : x < ((List.range 256).map (gamma_table_entry (1 / gamma))).length := by
      rw [List.length_map, List.length_range]; omega
    rw [List.getD_eq_getElem _ _ hlt, List.getElem_map, List.getElem_range]
    rw [gamma_table_entry_pos (1 / gamma) hpos x hx]
    rfl
  rw [gl p.1 h1, gl p.2.1 h2, gl p.2.2 h3]

/-- Witness for C5 (amended) on a concrete one-pixel 8-bit frame and
gamma 2. -/
theorem C5_gamma_truncation_witness :
    (0:ℝ) < 2 ∧ frame_uint8 [[(0, 128, 255)]] ∧
    adjust_gamma [[(0, 128, 255)]] 2 = some [[(gamma_remap 2 0,
      gamma_remap 2 128, gamma_remap 2 255)]] :=
  ⟨by norm_num, by unfold frame_uint8; decide,
   C5_gamma_truncation 2 (by norm_num) [[(0, 128, 255)]]
     (by unfold frame_uint8; decide)⟩

/-- Counterexample to C5 as stated: at gamma 2 and channel value 1 the
code's table entry is 15 (truncation of `255 * (1/255)^(1/2) = √255`,
which is strictly between 15.5 and 16), while the nearest integer —
`round(255 * (1/255)^(1/2))` — is 16. -/
theorem C5_gamma_round_counterexample :
    invGammaOf 2 = some ((1:ℝ) / 2) ∧
    gamma_table_entry ((1:ℝ) / 2) 1 = 15 ∧
    (round ((255:ℝ) * ((1:ℝ) / 255) ^ ((1:ℝ) / 2))).toNat = 16 ∧
    gamma_table_entry ((1:ℝ) / 2) 1 ≠
      (round ((255:ℝ) * ((1:ℝ) / 255) ^ ((1:ℝ) / 2))).toNat := by
  have hne : Real.sqrt 255 ≠ 0 := by positivity
  have hsqrt_eq : ((1:ℝ) / 255) ^ ((1:ℝ) / 2) * 255 = Real.sqrt 255 := by
    rw [show ((1:ℝ) / 2) = (1 / 2 : ℝ) from rfl, ← Real.sqrt_eq_rpow]
    rw [one_div, Real.sqrt_inv, inv_mul_eq_div, div_eq_iff hne]
    exact (Real.mul_self_sqrt (by norm_num : (0:ℝ) ≤ 255)).symm
  have hs2 : Real.sqrt 255 ^ 2 = 255 := Real.sq_sqrt (by norm_num)
  have hs0 : 0 ≤ Real.sqrt 255 := Real.sqrt_nonneg 255
  have hlow : (15.5:ℝ) ≤ Real.sqrt 255 := by nlinarith
  have hhigh : Real.sqrt 255 < 16 := by nlinarith
  have hent : gamma_table_entry ((1:ℝ) / 2) 1 = 15 := by
    unfold gamma_table_entry toUInt8Trunc
    rw [if_neg (by norm_num : ¬((1:ℕ) = 0 ∧ (1:ℝ) / 2 < 0))]
    rw [show (((1:ℕ):ℝ)) = (1:ℝ) from by norm_num, hsqrt_eq]
    rw [show ⌊Real.sqrt 255⌋ = (15:ℤ) from by
      rw [Int.floor_eq_iff]
      push_cast
      constructor <;> linarith]
    rfl
  have hround : (round ((255:ℝ) * ((1:ℝ) / 255) ^ ((1:ℝ) / 2))).toNat = 16 := by
    rw [mul_comm, hsqrt_eq, round_eq]
    rw [show ⌊Real.sqrt 255 + 1 / 2⌋ = (16:ℤ) from by
      rw [Int.floor_eq_iff]
      push_cast
      constructor <;> linarith]
    rfl
  exact ⟨by unfold invGammaOf; rw [if_neg (by norm_num : (2:ℝ) ≠ 0)],
    hent, hround, by rw [hent, hround]; norm_num⟩

/-! ## C7: failure behavior for non-positive gamma -/

/-- C7 (amended): the normalizer fails exactly at gamma 0 (Python float
division by zero); for every non-zero gamma, including negative values, it
returns a frame without failing (numpy evaluates `0.0 ** negative` to
`+inf` with a warning rather than raising). -/
theorem C7_gamma_error (f : Frame) :
    adjust_gamma f 0 = none ∧
    ∀ g : ℝ, g ≠ 0 → (adjust_gamma f g).isSome = true := by
  constructor
  · unfold adjust_gamma gamma_table invGammaOf
    rw [if_pos rfl]
    rfl
  · intro g hgz
    unfold adjust_gamma gamma_table invGammaOf
    rw [if_neg hgz]
    rfl

/-- Witness for C7 (amended) at a concrete frame and gamma. -/
theorem C7_gamma_error_witness :
    adjust_gamma [] 0 = none ∧
    ((2:ℝ) ≠ 0 ∧ (adjust_gamma [] 2).isSome = true) :=
  ⟨(C7_gamma_error []).1, by norm_num, (C7_gamma_error []).2 2 (by norm_num)⟩

/-- Counterexample to C7 as stated: gamma -1 is non-positive, yet the
normalizer does not fail — it builds a table and returns a frame. -/
theorem C7_gamma_error_counterexample :
    (-1 : ℝ) ≤ 0 ∧ (gamma_table (-1)).isSome = true ∧
    (adjust_gamma [[(0, 0, 0)]] (-1)).isSome = true := by
  have hig : invGammaOf (-1) = some (1 / (-1)) := by
    unfold invGammaOf
    rw [if_neg (by norm_num : (-1:ℝ) ≠ 0)]
  refine ⟨by norm_num, ?_, ?_⟩
  · unfold gamma_table
    rw [hig]
    rfl
  · unfold adjust_gamma gamma_table
    rw [hig]
    rfl

/-- Witness for C10 at a concrete sequence list containing the Morse code
of a question mark: the decoded text still holds no question mark. -/
theorem C10_no_question_mark_witness :
    ('?' : Char) ∉ (decoded_text ["..--..", ".-"]).data :=
  C10_no_question_mark.2 ["..--..", ".-"]
